import Mathlib

/-
Verification of the service-bus-tui resource-tree core.

This file is a shallow embedding, in Lean 4, of the tree-navigation and
multi-pane coordination state machine of the repository:

  * internal/app/namespace.go   (NamespaceModel: tree, cache, flat list)
  * the explorer model          (ExplorerModel: pane coordination)
  * the messages model          (MessagesModel: peeked message batch)
  * internal/app/message_detail.go (MessageDetailModel: detail rendering)

Conventions of the embedding:

  * Go strings are modelled at the character level (`List Char` for the
    byte-wise operations of package `strings`, `String` elsewhere); the
    identifiers handled by the program are ASCII, where Go's byte-wise
    operations agree with character-wise ones.
  * Go pointer mutation of a tree node reached through the flat list is
    modelled by locating the node's position (a path of child indices)
    and rewriting the tree at that path.
  * Go maps are modelled by association lists with overwrite-on-insert;
    `map[string][]*TreeNode` becomes `List (String × TreeForest)`.
  * Asynchronous `tea.Cmd`s are modelled as explicit outputs of the step
    function; completion events re-enter the step function as messages,
    exactly as bubbletea feeds them back into `Update`.
  * Terminal rendering primitives (lipgloss styles, spinners) are external
    collaborators; styled text is modelled as the underlying plain text.
-/

/-! ## Character-level embeddings of Go `strings` operations -/

/-- Embedding of `strings.HasPrefix` on character lists. -/
def goStartsWith : List Char → List Char → Bool
  | _, [] => true
  | [], _ :: _ => false
  | c :: s, p :: ps => c = p && goStartsWith s ps

/-- Embedding of `strings.HasSuffix` on character lists:
`HasSuffix(s, suf)` holds when the reversed string starts with the
reversed suffix. -/
def goEndsWith (s suf : List Char) : Bool :=
  goStartsWith s.reverse suf.reverse

/-- Embedding of `strings.TrimPrefix`. -/
def goDropPre (s p : List Char) : List Char :=
  if goStartsWith s p then s.drop p.length else s

/-- Embedding of `strings.TrimSuffix` (`s[:len(s)-len(suffix)]` on a hit). -/
def goDropSuf (s suf : List Char) : List Char :=
  if goEndsWith s suf then s.take (s.length - suf.length) else s

/-- Embedding of `strings.LastIndex(s, "-")` followed by the two slices
`s[:i]` and `s[i+1:]`: `none` when the string has no hyphen, otherwise
the parts before and after the last hyphen. -/
def lastHyphenSplit (l : List Char) : Option (List Char × List Char) :=
  let r := l.reverse
  let after := r.takeWhile (fun c => c ≠ '-')
  if after.length = r.length then none
  else some ((r.drop (after.length + 1)).reverse, after.reverse)

/-- Embedding of the Go slice expression `s[:n]` for an `int` bound:
out of range (negative, or past the end) is a runtime panic, modelled
as `none`. -/
def goSliceTo (l : List Char) (n : Int) : Option (List Char) :=
  if 0 ≤ n ∧ n ≤ (l.length : Int) then some (l.take n.toNat) else none

/-! ## The tree data model (`TreeNode` of namespace.go)

`TreeNode.Children []*TreeNode` is modelled with a mutually inductive
forest type so that all traversals are structural (and hence evaluable
by `decide`/`rfl`). -/

mutual
inductive TreeNode where
  | mk (id name type : String) (children : TreeForest)
       (isExpanded isLoading hasChildren : Bool) (depth : Int)
deriving DecidableEq
inductive TreeForest where
  | nil
  | cons (hd : TreeNode) (tl : TreeForest)
deriving DecidableEq
end

def NodeTypeTopic : String := "topic"

def NodeTypeQueue : String := "queue"

def NodeTypeSubscription : String := "subscription"

def NodeTypeMessages : String := "messages"

def TreeNode.id : TreeNode → String
  | .mk i _ _ _ _ _ _ _ => i

def TreeNode.name : TreeNode → String
  | .mk _ nm _ _ _ _ _ _ => nm

def TreeNode.type : TreeNode → String
  | .mk _ _ ty _ _ _ _ _ => ty

def TreeNode.children : TreeNode → TreeForest
  | .mk _ _ _ c _ _ _ _ => c

def TreeNode.isExpanded : TreeNode → Bool
  | .mk _ _ _ _ e _ _ _ => e

def TreeNode.isLoading : TreeNode → Bool
  | .mk _ _ _ _ _ l _ _ => l

def TreeNode.hasChildren : TreeNode → Bool
  | .mk _ _ _ _ _ _ h _ => h

def TreeNode.depth : TreeNode → Int
  | .mk _ _ _ _ _ _ _ d => d

def TreeNode.setChildren : TreeNode → TreeForest → TreeNode
  | .mk i nm ty _ e l h d, c => .mk i nm ty c e l h d

def TreeNode.setExpanded : TreeNode → Bool → TreeNode
  | .mk i nm ty c _ l h d, e => .mk i nm ty c e l h d

def TreeNode.setLoading : TreeNode → Bool → TreeNode
  | .mk i nm ty c e _ h d, l => .mk i nm ty c e l h d

def TreeNode.setDepth : TreeNode → Int → TreeNode
  | .mk i nm ty c e l h _, d => .mk i nm ty c e l h d

def TreeForest.length : TreeForest → Nat
  | .nil => 0
  | .cons _ tl => 1 + tl.length

def TreeForest.ofList : List TreeNode → TreeForest
  | [] => .nil
  | t :: ts => .cons t (TreeForest.ofList ts)

/-- The loop `for _, child := range node.Children { child.Depth = d }`
run on a detached child sequence. -/
def forestSetDepth : TreeForest → Int → TreeForest
  | .nil, _ => .nil
  | .cons hd tl, d => .cons (hd.setDepth d) (forestSetDepth tl d)

/-! ## Flat-list construction (`buildFlatList` of namespace.go) -/

mutual
/-- The `traverse` closure of `buildFlatList`: emit the node, then, when
the node is expanded and has attached children, emit the traversal of
each child in order. -/
def flattenNode : TreeNode → List TreeNode
  | .mk i nm ty c e l h d =>
    .mk i nm ty c e l h d :: (if e && decide (0 < c.length) then flattenForest c else [])
def flattenForest : TreeForest → List TreeNode
  | .nil => []
  | .cons hd tl => flattenNode hd ++ flattenForest tl
end

/-- `buildFlatList`: pre-order traversal of the root nodes, descending
only into expanded nodes. -/
def buildFlatList (roots : TreeForest) : List TreeNode :=
  flattenForest roots

mutual
/-- `buildFlatList` augmented with the position (path of child indices)
of every emitted node; used to model Go's mutation-through-pointer of a
node reached via `flatList[selectedIdx]`. -/
def flatEntriesNode (p : List Nat) : TreeNode → List (List Nat × TreeNode)
  | .mk i nm ty c e l h d =>
    (p, .mk i nm ty c e l h d) :: (if e && decide (0 < c.length) then flatEntriesForest p 0 c else [])
def flatEntriesForest (p : List Nat) (i : Nat) : TreeForest → List (List Nat × TreeNode)
  | .nil => []
  | .cons hd tl => flatEntriesNode (p ++ [i]) hd ++ flatEntriesForest p (i + 1) tl
end

def flatEntries (roots : TreeForest) : List (List Nat × TreeNode) :=
  flatEntriesForest [] 0 roots

/-- Rewrite the tree node at index `i` of a forest. -/
def updateForestAt : TreeForest → Nat → (TreeNode → TreeNode) → TreeForest
  | .nil, _, _ => .nil
  | .cons hd tl, 0, f => .cons (f hd) tl
  | .cons hd tl, Nat.succ i, f => .cons hd (updateForestAt tl i f)

/-- Rewrite the tree node at a path of child indices; an exhausted or
dangling path leaves the forest unchanged. -/
def updateAt (ts : TreeForest) (p : List Nat) (f : TreeNode → TreeNode) : TreeForest :=
  match p with
  | [] => ts
  | [i] => updateForestAt ts i f
  | i :: p' => updateForestAt ts i (fun n => n.setChildren (updateAt n.children p' f))

/-! ## The subscription cache (`map[string][]*TreeNode` + RWMutex)

The reader/writer lock only guards memory accesses; under the serial
event loop the cache behaves as a plain map, modelled as an association
list with overwrite-on-insert. -/

def cacheLookup : List (String × TreeForest) → String → Option TreeForest
  | [], _ => none
  | (k, v) :: r, id => if k = id then some v else cacheLookup r id

def cacheInsert : List (String × TreeForest) → String → TreeForest → List (String × TreeForest)
  | [], k, v => [(k, v)]
  | (k', v') :: r, k, v => if k' = k then (k, v) :: r else (k', v') :: cacheInsert r k v

/-! ## Expand / collapse (`handleExpandNode`, `collapseNode`) -/

/-- `handleExpandNode`: returns the mutated node together with the topic
id of the subscription fetch it issues, if any.  (The Go `node == nil`
guard cannot arise here: nodes are values.) -/
def handleExpandNode (cache : List (String × TreeForest)) : TreeNode → TreeNode × Option String
  | .mk i nm ty c e l h d =>
    if !h || e then (.mk i nm ty c e l h d, none)
    else if ty = NodeTypeTopic ∧ c.length = 0 then
      match cacheLookup cache i with
      | some cached => (.mk i nm ty (forestSetDepth cached (d + 1)) true l h d, none)
      | none => (.mk i nm ty c true true h d, some i)
    else (.mk i nm ty c true l h d, none)

/-- `collapseNode`: clear the expansion flag; children are retained. -/
def collapseNode : TreeNode → TreeNode
  | .mk i nm ty c e l h d => if !e then .mk i nm ty c e l h d else .mk i nm ty c false l h d

/-! ## Fetch-completion attachment (`findNodeByID` + the
`SubscriptionsLoadedMsg` branch of `NamespaceModel.Update`)

The Go code locates the first node with the given id in a full pre-order
search of the tree and mutates it through the returned pointer; the
embedding fuses the search and the mutation into one pass that rewrites
the first matching node and reports whether one was found. -/

mutual
def attachSubsNode (tid : String) (subs : TreeForest) : TreeNode → TreeNode × Bool
  | .mk i nm ty c e l h d =>
    if i = tid then
      (.mk i nm ty (forestSetDepth subs (d + 1)) e false h d, true)
    else
      let r := attachSubsForest tid subs c
      (.mk i nm ty r.1 e l h d, r.2)
def attachSubsForest (tid : String) (subs : TreeForest) : TreeForest → TreeForest × Bool
  | .nil => (.nil, false)
  | .cons hd tl =>
    let r := attachSubsNode tid subs hd
    if r.2 then (.cons r.1 tl, true)
    else
      let rs := attachSubsForest tid subs tl
      (.cons hd rs.1, rs.2)
end

-- `findNodeByID`: the first node of the full pre-order traversal whose
-- id matches.
mutual
def findNodeByIDNode (tid : String) : TreeNode → Option TreeNode
  | .mk i nm ty c e l h d =>
    if i = tid then some (.mk i nm ty c e l h d) else findNodeByIDForest tid c
def findNodeByIDForest (tid : String) : TreeForest → Option TreeNode
  | .nil => none
  | .cons hd tl =>
    match findNodeByIDNode tid hd with
    | some n => some n
    | none => findNodeByIDForest tid tl
end

/-! ## Message-group id decoding (`createMessagesSelectedMsg`) -/

/-- `SubscriptionMessagesSelectedMsg`. -/
structure SubSelection where
  topicName : String
  subscriptionName : String
  isDeadLetter : Bool
deriving DecidableEq

def subIdPre : List Char := "sub-".data

def activeSuf : List Char := "-active".data

def dlqSuf : List Char := "-dlq".data

/-- The id-parsing part of `createMessagesSelectedMsg`: strip the leading
`sub-`, strip the trailing `-active` (deadLetter=false) or `-dlq`
(deadLetter=true), split the rest at its last hyphen. -/
def decodeMessagesNodeID (id0 : List Char) : Option SubSelection :=
  if !goStartsWith id0 subIdPre then none
  else
    let id := goDropPre id0 subIdPre
    if goEndsWith id activeSuf then
      match lastHyphenSplit (goDropSuf id activeSuf) with
      | none => none
      | some (t, s) => some ⟨String.mk t, String.mk s, false⟩
    else if goEndsWith id dlqSuf then
      match lastHyphenSplit (goDropSuf id dlqSuf) with
      | none => none
      | some (t, s) => some ⟨String.mk t, String.mk s, true⟩
    else none

/-- `createMessagesSelectedMsg`: only defined on message-group nodes;
decodes the node id. -/
def createMessagesSelectedMsg (node : TreeNode) : Option SubSelection :=
  if node.type ≠ NodeTypeMessages then none
  else decodeMessagesNodeID node.id.data

/-! ## The message batch model (`MessageInfo` of azure/client.go) -/

/-- The variant type of a custom application property
(`map[string]any`); numbers are modelled integrally, the enqueue time as
an abstract tick. -/
inductive PropValue where
  | str (s : String)
  | int (i : Int)
  | bool (b : Bool)
  | null
deriving DecidableEq

def PropValue.render : PropValue → String
  | .str s => s
  | .int i => toString i
  | .bool b => toString b
  | .null => "<nil>"

/-- `azure.MessageInfo`; `EnqueuedTime` is modelled as an abstract tick,
`Properties` as an association list whose order is the map's (undefined)
iteration order. -/
structure MessageInfo where
  messageID : String
  sequenceNumber : Int
  subject : String
  body : String
  enqueuedTime : Int
  contentType : String
  properties : List (String × PropValue)
deriving DecidableEq

/-! ## Events and commands of the namespace pane -/

/-- The event stream alphabet relevant to the core: key presses, window
sizing, and the typed completion messages that async commands feed back
into `Update`. -/
inductive Msg where
  | keyUp | keyDown | keyRight | keyLeft | keyTab | keyOther
  | windowSize (w h : Int)
  | topicsLoaded (nodes : TreeForest)
  | subsLoaded (topicID : String) (subs : TreeForest)
  | subSelected (sel : SubSelection)
  | messagesLoaded (ms : List MessageInfo)
  | errorMsg (e : String)

/-- The async commands `NamespaceModel.Update` can return (spinner ticks
are pure rendering and not modelled). -/
inductive NsOut where
  | fetchSubscriptions (topicID : String)
  | selectMessages (sel : SubSelection)
deriving DecidableEq

/-- The mutable state of `NamespaceModel` (spinner omitted; the viewport
contributes its width, height and y-offset). -/
structure NsState where
  rootNodes : TreeForest
  subscriptionCache : List (String × TreeForest)
  errMsg : String
  selectedIdx : Int
  isLoading : Bool
  vpWidth : Int
  vpHeight : Int
  vpYOffset : Int
  flatList : List TreeNode

/-- `NewNamespaceModel`. -/
def nsInit : NsState :=
  { rootNodes := .nil
    subscriptionCache := []
    errMsg := ""
    selectedIdx := 0
    isLoading := true
    vpWidth := 0
    vpHeight := 0
    vpYOffset := 0
    flatList := [] }

/-- `ensureSelectedVisible`: clamp the selection into the flat list, then
scroll-follow when the viewport has a size. -/
def ensureSelectedVisible (s : NsState) : NsState :=
  let idx := if s.selectedIdx ≥ (s.flatList.length : Int) then (s.flatList.length : Int) - 1
             else s.selectedIdx
  let idx := if idx < 0 then 0 else idx
  let s := { s with selectedIdx := idx }
  if s.vpWidth = 0 ∨ s.vpHeight = 0 then s
  else if idx < s.vpYOffset then { s with vpYOffset := idx }
  else if idx ≥ s.vpYOffset + s.vpHeight then { s with vpYOffset := idx - s.vpHeight + 1 }
  else s

def nsOnKeyUp (s : NsState) : NsState :=
  ensureSelectedVisible
    (if s.selectedIdx > 0 then { s with selectedIdx := s.selectedIdx - 1 } else s)

def nsOnKeyDown (s : NsState) : NsState :=
  ensureSelectedVisible
    (if s.selectedIdx < (s.flatList.length : Int) - 1 then { s with selectedIdx := s.selectedIdx + 1 } else s)

/-- The `"right", "l", "enter"` branch: on a message-group node emit the
selection event (if the id decodes); otherwise expand the selected node
in place and rebuild the flat list. -/
def nsOnKeyRight (s : NsState) : NsState × Option NsOut :=
  if 0 ≤ s.selectedIdx ∧ s.selectedIdx < (s.flatList.length : Int) then
    match (flatEntries s.rootNodes).get? s.selectedIdx.toNat with
    | none => (s, none)
    | some (p, node) =>
      if node.type = NodeTypeMessages then
        match createMessagesSelectedMsg node with
        | some sel => (s, some (.selectMessages sel))
        | none => (s, none)
      else
        let r := handleExpandNode s.subscriptionCache node
        let roots := updateAt s.rootNodes p (fun _ => r.1)
        ({ s with rootNodes := roots, flatList := buildFlatList roots },
         r.2.map NsOut.fetchSubscriptions)
  else (s, none)

/-- The `"left", "h"` branch: collapse the selected node in place and
rebuild the flat list. -/
def nsOnKeyLeft (s : NsState) : NsState :=
  if 0 ≤ s.selectedIdx ∧ s.selectedIdx < (s.flatList.length : Int) then
    match (flatEntries s.rootNodes).get? s.selectedIdx.toNat with
    | none => s
    | some (p, _) =>
      let roots := updateAt s.rootNodes p collapseNode
      { s with rootNodes := roots, flatList := buildFlatList roots }
  else s

/-- The `TopicsAndQueuesLoadedMsg` branch. -/
def nsOnTopicsLoaded (nodes : TreeForest) (s : NsState) : NsState :=
  { s with rootNodes := nodes, selectedIdx := 0, isLoading := false,
           flatList := buildFlatList nodes, vpYOffset := 0 }

/-- The `SubscriptionsLoadedMsg` branch: write the cache, re-locate the
target node by id, attach children (depth `parent.Depth+1`, loading flag
cleared) when found, rebuild the flat list in all cases. -/
def nsOnSubsLoaded (tid : String) (subs : TreeForest) (s : NsState) : NsState :=
  let cache := cacheInsert s.subscriptionCache tid subs
  let roots := (attachSubsForest tid subs s.rootNodes).1
  { s with subscriptionCache := cache, rootNodes := roots,
           flatList := buildFlatList roots }

/-- `NamespaceModel.Update` (spinner plumbing dropped): one serial event
in, the next state and at most one async command out. -/
def nsStep (m : Msg) (s : NsState) : NsState × Option NsOut :=
  match m with
  | .keyUp => (nsOnKeyUp s, none)
  | .keyDown => (nsOnKeyDown s, none)
  | .keyRight => nsOnKeyRight s
  | .keyLeft => (nsOnKeyLeft s, none)
  | .keyTab => (s, none)
  | .keyOther => (s, none)
  | .windowSize w h => ({ s with vpWidth := w, vpHeight := max h 3, vpYOffset := 0 }, none)
  | .topicsLoaded nodes => (nsOnTopicsLoaded nodes s, none)
  | .subsLoaded tid subs => (nsOnSubsLoaded tid subs s, none)
  | .subSelected _ => (s, none)
  | .messagesLoaded _ => (s, none)
  | .errorMsg e => ({ s with errMsg := e }, none)

/-- States of the namespace pane reachable from `NewNamespaceModel` by
any sequence of events. -/
inductive ReachableNs : NsState → Prop where
  | init : ReachableNs nsInit
  | step (m : Msg) {s : NsState} : ReachableNs s → ReachableNs (nsStep m s).1

def runNs : List Msg → NsState → NsState
  | [], s => s
  | m :: ms, s => runNs ms (nsStep m s).1

/-! ## The initial load command (`loadTopicsAndQueuesCmd`) -/

def mkTopicNode (t : String) : TreeNode :=
  .mk ("topic-" ++ t) t NodeTypeTopic .nil false false true 0

def mkQueueNode (q : String) : TreeNode :=
  .mk ("queue-" ++ q) q NodeTypeQueue .nil false false false 0

/-- `loadTopicsAndQueuesCmd`, as a function of the provider's two
results: a failure at either call yields an `ErrorMsg`; only when both
succeed does a `TopicsAndQueuesLoadedMsg` carry the topic nodes followed
by the queue nodes. -/
def loadTopicsAndQueues (tRes qRes : Except String (List String)) : Msg :=
  match tRes with
  | .error e => .errorMsg ("failed to load topics: " ++ e)
  | .ok topics =>
    match qRes with
    | .error e => .errorMsg ("failed to load queues: " ++ e)
    | .ok queues =>
      .topicsLoaded (TreeForest.ofList (topics.map mkTopicNode ++ queues.map mkQueueNode))

/-! ## The messages pane (`MessagesModel` of messages.go) -/

/-- The async command `MessagesModel` issues: a peek of up to `max`
messages for one subscription/direction. -/
structure PeekRequest where
  topicName : String
  subscriptionName : String
  isDeadLetter : Bool
  max : Nat
deriving DecidableEq

/-- The mutable state of `MessagesModel` (spinner and table styling
omitted; the embedded table contributes its cursor). -/
structure MsgsState where
  topicName : String
  subscriptionName : String
  isDeadLetter : Bool
  messages : List MessageInfo
  cursor : Nat
  isLoading : Bool
  errMsg : String
  width : Int
  height : Int
  isEmpty : Bool

/-- `NewMessagesModel`. -/
def msgsInit : MsgsState :=
  { topicName := ""
    subscriptionName := ""
    isDeadLetter := false
    messages := []
    cursor := 0
    isLoading := false
    errMsg := ""
    width := 0
    height := 0
    isEmpty := true }

/-- The embedded bubbles table consuming a key when the pane is focused:
up/down move its cursor within `[0, len(messages)-1]`. -/
def msgsTableKey (m : Msg) (s : MsgsState) : MsgsState :=
  match m with
  | .keyUp => { s with cursor := s.cursor - 1 }
  | .keyDown =>
    if s.cursor + 1 < s.messages.length then { s with cursor := s.cursor + 1 } else s
  | _ => s

/-- `MessagesModel.Update`: keys go to the table only when non-empty and
not loading; a `MessagesLoadedMsg` replaces the batch unconditionally;
an `ErrorMsg` records the error inline. -/
def msgsUpdate (m : Msg) (s : MsgsState) : MsgsState :=
  match m with
  | .keyUp | .keyDown | .keyRight | .keyLeft | .keyOther =>
    if !s.isEmpty && !s.isLoading then msgsTableKey m s else s
  | .messagesLoaded ms => { s with isLoading := false, messages := ms }
  | .errorMsg e => { s with isLoading := false, errMsg := e }
  | _ => s

/-- `MessagesModel.LoadMessages`: record the target, set loading, clear
the error and the batch, and issue the async peek (of up to 100
messages). -/
def msgsLoadMessages (topicName subscriptionName : String) (isDeadLetter : Bool)
    (s : MsgsState) : MsgsState × PeekRequest :=
  ({ s with topicName := topicName, subscriptionName := subscriptionName,
            isDeadLetter := isDeadLetter, isLoading := true, isEmpty := false,
            errMsg := "", messages := [] },
   ⟨topicName, subscriptionName, isDeadLetter, 100⟩)

/-- `MessagesModel.SelectedMessage`. -/
def msgsSelectedMessage (s : MsgsState) : Option MessageInfo :=
  if s.messages.length = 0 then none else s.messages.get? s.cursor

/-- `loadMessagesCmd`, as a function of the provider's result. -/
def loadMessagesResult (r : Except String (List MessageInfo)) : Msg :=
  match r with
  | .error e => .errorMsg ("failed to peek messages: " ++ e)
  | .ok ms => .messagesLoaded ms

/-- The two `strings.ReplaceAll` calls of `truncateString`: newlines
become spaces, carriage returns are removed. -/
def cleanGoString (s : List Char) : List Char :=
  (s.map (fun c => if c = '\n' then ' ' else c)).filter (fun c => c ≠ '\r')

/-- `truncateString`: replace newlines by spaces, remove carriage
returns, and truncate to `maxLen` characters with a `...` tail; the Go
slice `s[:maxLen-3]` is out of range (a panic, modelled as `none`) when
`maxLen < 3` and the cleaned string is longer than `maxLen`. -/
def truncateString (s : List Char) (maxLen : Int) : Option (List Char) :=
  let t := cleanGoString s
  if (t.length : Int) ≤ maxLen then some t
  else (goSliceTo t (maxLen - 3)).map (fun u => u ++ "...".data)

/-! ## The detail pane (`MessageDetailModel` of message_detail.go) -/

/-- `sort.Strings` on the collected property keys. -/
def sortStrings (keys : List String) : List String :=
  keys.mergeSort (fun a b => a ≤ b)

/-- `writeField`: one rendered line, with `-` standing in for an absent
value (label padding is rendering detail and kept as plain
concatenation). -/
def writeFieldLine (label value : String) : String :=
  label ++ ": " ++ (if value = "" then "-" else value)

/-- `m.message.Properties[k]` rendered with `%v`. -/
def propRender (props : List (String × PropValue)) (k : String) : String :=
  match props.lookup k with
  | some v => v.render
  | none => "<nil>"

/-- `rebuildContent`, as the list of rendered lines: header fields, then
— only when there are custom properties — the Custom Properties section
with keys sorted ascending, then the body.  (`styles.FormatJSONBody` is
an external rendering primitive, modelled as the raw body.) -/
def rebuildContentLines (msg : MessageInfo) : List String :=
  ["Properties", "--------------------",
   writeFieldLine "Message ID" msg.messageID,
   writeFieldLine "Sequence #" (toString msg.sequenceNumber),
   writeFieldLine "Subject" msg.subject,
   writeFieldLine "Enqueued" (toString msg.enqueuedTime),
   writeFieldLine "Content-Type" msg.contentType]
  ++ (if 0 < msg.properties.length then
        ["", "Custom Properties", "--------------------"]
        ++ (sortStrings (msg.properties.map Prod.fst)).map
             (fun k => writeFieldLine k (propRender msg.properties k))
      else [])
  ++ ["", "Body", "--------------------", msg.body]

/-- The mutable state of `MessageDetailModel` that the claims touch: the
message whose content is displayed. -/
structure DetailState where
  message : Option MessageInfo

def detailInit : DetailState := { message := none }

/-- `MessageDetailModel.SetMessage` followed by `rebuildContent`. -/
def detailSetMessage (msg : MessageInfo) (_ : DetailState) : DetailState :=
  { message := some msg }

/-! ## The pane coordinator (`ExplorerModel` of explorer.go) -/

inductive Pane where
  | paneNamespace | paneMessages | paneDetail
deriving DecidableEq

/-- The mutable state of `ExplorerModel`. -/
structure ExplorerState where
  ns : NsState
  msgs : MsgsState
  detail : DetailState
  activePane : Pane
  prevCursor : Int
  width : Int
  height : Int

/-- `NewExplorerModel`. -/
def explorerInit : ExplorerState :=
  { ns := nsInit
    msgs := msgsInit
    detail := detailInit
    activePane := .paneNamespace
    prevCursor := -1
    width := 0
    height := 0 }

/-- The async commands the explorer can return: outward fetches, and
commands that re-inject a message into the serial event stream (the
`func() tea.Msg { return *msg }` closure of the tree's selection
path). -/
inductive ExplorerOut where
  | fetchSubscriptions (topicID : String)
  | peek (req : PeekRequest)
  | emit (m : Msg)

def contentHeight (s : ExplorerState) : Int := max (s.height - 5) 3

def namespaceWidth (s : ExplorerState) : Int := max (s.width * 15 / 100) 15

def detailWidth (s : ExplorerState) : Int := max (s.width * 30 / 100) 30

def messagesWidth (s : ExplorerState) : Int :=
  max (s.width - namespaceWidth s - detailWidth s) 30

/-- `switchPane`: `tab` cycles focus, skipping panes that are disabled by
the focus rules (Messages needs a non-empty batch; Detail needs a
highlighted message). -/
def switchPane (s : ExplorerState) : ExplorerState :=
  match s.activePane with
  | .paneNamespace =>
    if !s.msgs.isEmpty then { s with activePane := .paneMessages } else s
  | .paneMessages =>
    if !s.msgs.isEmpty ∧ (msgsSelectedMessage s.msgs).isSome then
      { s with activePane := .paneDetail }
    else { s with activePane := .paneNamespace }
  | .paneDetail => { s with activePane := .paneNamespace }

/-- `syncDetailWithCursor`: push the highlighted message into the detail
pane when the cursor moved (compared by position, not message
identity). -/
def syncDetailWithCursor (s : ExplorerState) : ExplorerState :=
  match msgsSelectedMessage s.msgs with
  | none => s
  | some selected =>
    if (s.msgs.cursor : Int) ≠ s.prevCursor then
      { s with prevCursor := (s.msgs.cursor : Int),
               detail := detailSetMessage selected s.detail }
    else s

/-- `ExplorerModel.Update`: window sizing, `tab`, key routing by focused
pane, selection events into `LoadMessages`, load completions into the
messages pane (with auto-focus on a non-empty batch), and everything
else — `ErrorMsg` and the tree's completion messages included —
broadcast to both the namespace and the messages models. -/
def explorerStep (m : Msg) (s : ExplorerState) : ExplorerState × List ExplorerOut :=
  match m with
  | .windowSize w h =>
    let s := { s with width := w, height := h }
    let ns := (nsStep (.windowSize (namespaceWidth s - 2) (contentHeight s)) s.ns).1
    let msgs := { s.msgs with width := messagesWidth s - 2, height := contentHeight s }
    ({ s with ns := ns, msgs := msgs }, [])
  | .keyTab => (switchPane s, [])
  | .keyUp | .keyDown | .keyRight | .keyLeft | .keyOther =>
    match s.activePane with
    | .paneNamespace =>
      let r := nsStep m s.ns
      ({ s with ns := r.1 },
       (r.2.map (fun o => match o with
         | .fetchSubscriptions tid => ExplorerOut.fetchSubscriptions tid
         | .selectMessages sel => ExplorerOut.emit (.subSelected sel))).toList)
    | .paneMessages =>
      let msgs := msgsUpdate m s.msgs
      (syncDetailWithCursor { s with msgs := msgs }, [])
    | .paneDetail => (s, [])
  | .subSelected sel =>
    let r := msgsLoadMessages sel.topicName sel.subscriptionName sel.isDeadLetter s.msgs
    ({ s with msgs := r.1 }, [.peek r.2])
  | .messagesLoaded ms =>
    let s := { s with msgs := msgsUpdate m s.msgs }
    if 0 < ms.length then
      (syncDetailWithCursor { s with activePane := .paneMessages, prevCursor := -1 }, [])
    else (s, [])
  | .topicsLoaded _ | .subsLoaded _ _ | .errorMsg _ =>
    let r := nsStep m s.ns
    ({ s with ns := r.1, msgs := msgsUpdate m s.msgs }, [])

/-! ## Lemmas about the Go string operations -/

theorem goStartsWith_append (p r : List Char) : goStartsWith (p ++ r) p = true := by
  induction p with
  | nil => cases r <;> simp [goStartsWith]
  | cons c ps ih => simp [goStartsWith, ih]

theorem goDropPre_append (p r : List Char) : goDropPre (p ++ r) p = r := by
  simp [goDropPre, goStartsWith_append, List.drop_left]

theorem goEndsWith_append (a b : List Char) : goEndsWith (a ++ b) b = true := by
  simp [goEndsWith, List.reverse_append, goStartsWith_append]

theorem goDropSuf_append (a b : List Char) : goDropSuf (a ++ b) b = a := by
  simp only [goDropSuf, goEndsWith_append, if_true, List.length_append]
  have h : a.length + b.length - b.length = a.length := by omega
  rw [h, List.take_left]

theorem goEndsWith_dlq_not_active (core : List Char) :
    goEndsWith (core ++ dlqSuf) activeSuf = false := by
  have h1 : dlqSuf.reverse = ['q', 'l', 'd', '-'] := by decide
  have h2 : activeSuf.reverse = ['e', 'v', 'i', 't', 'c', 'a', '-'] := by decide
  simp [goEndsWith, List.reverse_append, h1, h2, goStartsWith]

/-! ## Claim C2: message-group id decoding -/

def activeDemoNode : TreeNode :=
  .mk "sub-orders-billing-active" "Active Messages" NodeTypeMessages .nil false false false 2

def dlqDemoNode : TreeNode :=
  .mk "sub-orders-billing-dlq" "DLQ Messages" NodeTypeMessages .nil false false false 2

def noHyphenDemoNode : TreeNode :=
  .mk "sub-x-active" "Active Messages" NodeTypeMessages .nil false false false 2

def badSuffixDemoNode : TreeNode :=
  .mk "sub-orders-billing" "Active Messages" NodeTypeMessages .nil false false false 2

/-- C2.  Selecting a MessageGroup node decodes the node id by stripping
the leading `sub-`, stripping the trailing `-active` (deadLetter=false)
or `-dlq` (deadLetter=true), and splitting the remainder at its last
hyphen into topic name (before) and subscription name (after):
`sub-orders-billing-active` decodes to (orders, billing, false) and
`sub-orders-billing-dlq` to (orders, billing, true); an id lacking the
`sub-` prefix, lacking both suffixes, or whose stripped remainder has no
hyphen (`lastHyphenSplit` is `none`, making the mapped option `none`)
produces no selection event. -/
theorem C2_decode_spec :
    createMessagesSelectedMsg activeDemoNode = some ⟨"orders", "billing", false⟩ ∧
    createMessagesSelectedMsg dlqDemoNode = some ⟨"orders", "billing", true⟩ ∧
    (∀ node : TreeNode, node.type = NodeTypeMessages →
       createMessagesSelectedMsg node = decodeMessagesNodeID node.id.data) ∧
    (∀ core : List Char,
       decodeMessagesNodeID (subIdPre ++ (core ++ activeSuf)) =
         (lastHyphenSplit core).map (fun pr => ⟨String.mk pr.1, String.mk pr.2, false⟩)) ∧
    (∀ core : List Char,
       decodeMessagesNodeID (subIdPre ++ (core ++ dlqSuf)) =
         (lastHyphenSplit core).map (fun pr => ⟨String.mk pr.1, String.mk pr.2, true⟩)) ∧
    (∀ id0 : List Char, goStartsWith id0 subIdPre = false →
       decodeMessagesNodeID id0 = none) ∧
    (∀ id0 : List Char,
       goEndsWith (goDropPre id0 subIdPre) activeSuf = false →
       goEndsWith (goDropPre id0 subIdPre) dlqSuf = false →
       decodeMessagesNodeID id0 = none) := by
  refine ⟨by decide, by decide, ?_, ?_, ?_, ?_, ?_⟩
  · intro node h
    simp [createMessagesSelectedMsg, h]
  · intro core
    have hpre := goStartsWith_append subIdPre (core ++ activeSuf)
    have hdrop := goDropPre_append subIdPre (core ++ activeSuf)
    have hsuf := goEndsWith_append core activeSuf
    have hcut := goDropSuf_append core activeSuf
    simp only [decodeMessagesNodeID, hpre, hdrop, hsuf, hcut, Bool.not_true,
      Bool.false_eq_true, if_false, if_true]
    cases lastHyphenSplit core <;> simp
  · intro core
    have hpre := goStartsWith_append subIdPre (core ++ dlqSuf)
    have hdrop := goDropPre_append subIdPre (core ++ dlqSuf)
    have hact := goEndsWith_dlq_not_active core
    have hsuf := goEndsWith_append core dlqSuf
    have hcut := goDropSuf_append core dlqSuf
    simp only [decodeMessagesNodeID, hpre, hdrop, hact, hsuf, hcut, Bool.not_true,
      Bool.false_eq_true, if_false, if_true]
    cases lastHyphenSplit core <;> simp
  · intro id0 h
    simp [decodeMessagesNodeID, h]
  · intro id0 hact hdlq
    simp [decodeMessagesNodeID, hact, hdlq]

/-- Witness for C2: the no-selection branches evaluated on concrete
message-group ids lacking a suffix, and on a remainder with no
hyphen. -/
theorem C2_decode_spec_witness :
    createMessagesSelectedMsg badSuffixDemoNode = none ∧
    createMessagesSelectedMsg noHyphenDemoNode = none := by
  constructor
  · have h := C2_decode_spec.2.2.1 badSuffixDemoNode (by decide)
    rw [h]
    exact C2_decode_spec.2.2.2.2.2.2 "orders-billing".data (by decide) (by decide)
  · have h := C2_decode_spec.2.2.1 noHyphenDemoNode (by decide)
    rw [h]
    have := C2_decode_spec.2.2.2.1 "x".data
    simpa using this

/-! ## Claim C10: truncateString safety -/

theorem cleanGoString_no_newline (s : List Char) : '\n' ∉ cleanGoString s := by
  intro hmem
  have hmem' := (List.mem_filter.1 hmem).1
  rcases List.mem_map.1 hmem' with ⟨a, _, ha⟩
  by_cases hc : a = '\n'
  · rw [if_pos hc] at ha
    exact absurd ha (by decide)
  · rw [if_neg hc] at ha
    exact hc ha

theorem cleanGoString_no_cr (s : List Char) : '\r' ∉ cleanGoString s := by
  intro hmem
  have := (List.mem_filter.1 hmem).2
  simp at this

/-- C10.  For every string and every `maxLen ≥ 3`, `truncateString`
succeeds (the slice `s[:maxLen-3]` is in range whenever it is taken) and
returns a string of length at most `maxLen` containing no newline and no
carriage return: newlines were replaced by spaces and carriage returns
removed by the cleaning pass. -/
theorem C10_truncateString_safe (s : List Char) (maxLen : Int) (h : 3 ≤ maxLen) :
    ∃ r, truncateString s maxLen = some r ∧ (r.length : Int) ≤ maxLen ∧
      '\n' ∉ r ∧ '\r' ∉ r := by
  unfold truncateString
  by_cases hle : ((cleanGoString s).length : Int) ≤ maxLen
  · exact ⟨cleanGoString s, by simp [hle], hle, cleanGoString_no_newline s,
      cleanGoString_no_cr s⟩
  · push_neg at hle
    have hcond : 0 ≤ maxLen - 3 ∧ maxLen - 3 ≤ ((cleanGoString s).length : Int) := by
      constructor <;> omega
    have hslice : goSliceTo (cleanGoString s) (maxLen - 3) =
        some ((cleanGoString s).take (maxLen - 3).toNat) := by
      simp [goSliceTo, hcond]
    refine ⟨(cleanGoString s).take (maxLen - 3).toNat ++ "...".data, ?_, ?_, ?_, ?_⟩
    · rw [if_neg (by omega), hslice]
      rfl
    · have htake : ((cleanGoString s).take (maxLen - 3).toNat).length = (maxLen - 3).toNat := by
        rw [List.length_take]
        omega
      have : ("...".data).length = 3 := by decide
      rw [List.length_append, htake, this]
      omega
    · intro hmem
      rcases List.mem_append.1 hmem with hmem | hmem
      · exact cleanGoString_no_newline s (List.take_subset _ _ hmem)
      · exact absurd hmem (by decide)
    · intro hmem
      rcases List.mem_append.1 hmem with hmem | hmem
      · exact cleanGoString_no_cr s (List.take_subset _ _ hmem)
      · exact absurd hmem (by decide)

/-- Witness for C10: a string with a newline and a carriage return,
truncated to 8 characters. -/
theorem C10_truncateString_safe_witness :
    ∃ r, truncateString "hello\r\nworld!".data 8 = some r ∧ (r.length : Int) ≤ 8 ∧
      '\n' ∉ r ∧ '\r' ∉ r :=
  C10_truncateString_safe "hello\r\nworld!".data 8 (by norm_num)

/-! ## Claim C3: unconditional batch replacement, out-of-order completions -/

/-- C3.  A `MessagesLoadedMsg` replaces the displayed batch by its
payload unconditionally — no staleness or generation guard inspects
which load produced it — so when two `LoadMessages` calls overlap and
the first call's response arrives after the second's, the batch on
display at the end is the first call's. -/
theorem C3_lastWriteWins :
    (∀ (s : MsgsState) (ms : List MessageInfo),
       (msgsUpdate (.messagesLoaded ms) s).messages = ms ∧
       (msgsUpdate (.messagesLoaded ms) s).isLoading = false) ∧
    (∀ (s0 : MsgsState) (t1 n1 t2 n2 : String) (d1 d2 : Bool)
       (msFirst msSecond : List MessageInfo),
       (msgsUpdate (.messagesLoaded msFirst)
         (msgsUpdate (.messagesLoaded msSecond)
           (msgsLoadMessages t2 n2 d2 (msgsLoadMessages t1 n1 d1 s0).1).1)).messages =
         msFirst) := by
  constructor
  · intro s ms
    exact ⟨rfl, rfl⟩
  · intro s0 t1 n1 t2 n2 d1 d2 msFirst msSecond
    rfl

/-! ## Claim C9: custom property keys are rendered sorted -/

theorem sortStrings_sorted (keys : List String) :
    List.Sorted (· ≤ ·) (sortStrings keys) := by
  have h := @List.sorted_mergeSort String (fun a b : String => decide (a ≤ b))
    (fun a b c hab hbc => by
      simp only [decide_eq_true_eq] at *
      exact le_trans hab hbc)
    (fun a b => by
      simp only [Bool.or_eq_true, decide_eq_true_eq]
      exact le_total a b) keys
  exact List.Pairwise.imp (by intro a b hab; simpa using hab) h

theorem sortStrings_perm (keys : List String) : (sortStrings keys).Perm keys :=
  List.mergeSort_perm keys _

/-- C9.  For a message with a non-empty application-properties map,
`rebuildContent` renders the Custom Properties section with one line
per key, the keys appearing in ascending lexicographic order; the
result is a sort of the map's key multiset and is the same for every
iteration order the map may present. -/
theorem C9_sortedProperties :
    (∀ msg : MessageInfo, 0 < msg.properties.length →
       ∃ pre post, rebuildContentLines msg =
         pre ++ (sortStrings (msg.properties.map Prod.fst)).map
           (fun k => writeFieldLine k (propRender msg.properties k)) ++ post) ∧
    (∀ keys : List String, List.Sorted (· ≤ ·) (sortStrings keys)) ∧
    (∀ keys : List String, (sortStrings keys).Perm keys) ∧
    (∀ k1 k2 : List String, k1.Perm k2 → sortStrings k1 = sortStrings k2) := by
  refine ⟨?_, sortStrings_sorted, sortStrings_perm, ?_⟩
  · intro msg hne
    refine ⟨["Properties", "--------------------",
      writeFieldLine "Message ID" msg.messageID,
      writeFieldLine "Sequence #" (toString msg.sequenceNumber),
      writeFieldLine "Subject" msg.subject,
      writeFieldLine "Enqueued" (toString msg.enqueuedTime),
      writeFieldLine "Content-Type" msg.contentType,
      "", "Custom Properties", "--------------------"],
      ["", "Body", "--------------------", msg.body], ?_⟩
    simp [rebuildContentLines, hne]
  · intro k1 k2 hperm
    exact List.eq_of_perm_of_sorted
      ((sortStrings_perm k1).trans (hperm.trans (sortStrings_perm k2).symm))
      (sortStrings_sorted k1) (sortStrings_sorted k2)

/-- Witness for C9: two iteration orders of the same two-key map render
the same sorted key sequence. -/
theorem C9_sortedProperties_witness :
    sortStrings ["b", "a"] = sortStrings ["a", "b"] :=
  C9_sortedProperties.2.2.2 ["b", "a"] ["a", "b"] (by decide)

/-! ## Claim C7: a failed initial load leaves the tree empty -/

/-- C7.  `loadTopicsAndQueuesCmd` produces a single message for both
provider calls: if listing topics fails, or listing topics succeeds and
listing queues fails, the produced message is an `ErrorMsg`; processing
an `ErrorMsg` only records the error string — on the initial state the
tree stays empty, and in general the root nodes and flat list are left
exactly as they were, so no partial population (topics without queues)
can become visible. -/
theorem C7_loadFailureLeavesTreeEmpty :
    ∀ tRes qRes : Except String (List String),
      ((∃ e, tRes = Except.error e) ∨ (∃ e, qRes = Except.error e)) →
      ∃ emsg, loadTopicsAndQueues tRes qRes = Msg.errorMsg emsg ∧ emsg ≠ "" ∧
        (nsStep (Msg.errorMsg emsg) nsInit).1.rootNodes = TreeForest.nil ∧
        (nsStep (Msg.errorMsg emsg) nsInit).1.flatList = [] ∧
        (nsStep (Msg.errorMsg emsg) nsInit).1.errMsg = emsg ∧
        (∀ s : NsState, (nsStep (Msg.errorMsg emsg) s).1.rootNodes = s.rootNodes ∧
          (nsStep (Msg.errorMsg emsg) s).1.flatList = s.flatList) := by
  intro tRes qRes hfail
  have hne : ∀ (pre e : String), pre.data ≠ [] → pre ++ e ≠ "" := by
    intro pre e hpre h
    have := congrArg String.data h
    rw [String.data_append] at this
    cases hd : pre.data with
    | nil => exact hpre hd
    | cons c cs =>
      rw [hd] at this
      simp at this
  cases tRes with
  | error e =>
    exact ⟨"failed to load topics: " ++ e, rfl, hne _ e (by decide), rfl, rfl, rfl,
      fun s => ⟨rfl, rfl⟩⟩
  | ok topics =>
    cases qRes with
    | error e =>
      exact ⟨"failed to load queues: " ++ e, rfl, hne _ e (by decide), rfl, rfl, rfl,
        fun s => ⟨rfl, rfl⟩⟩
    | ok queues =>
      rcases hfail with ⟨e, he⟩ | ⟨e, he⟩ <;> exact absurd he (by simp)

/-- Witness for C7: the queues call failing after the topics call
succeeded. -/
theorem C7_loadFailureLeavesTreeEmpty_witness :
    ∃ emsg, loadTopicsAndQueues (Except.ok ["orders"]) (Except.error "boom") =
        Msg.errorMsg emsg ∧ emsg ≠ "" ∧
      (nsStep (Msg.errorMsg emsg) nsInit).1.rootNodes = TreeForest.nil ∧
      (nsStep (Msg.errorMsg emsg) nsInit).1.flatList = [] ∧
      (nsStep (Msg.errorMsg emsg) nsInit).1.errMsg = emsg ∧
      (∀ s : NsState, (nsStep (Msg.errorMsg emsg) s).1.rootNodes = s.rootNodes ∧
        (nsStep (Msg.errorMsg emsg) s).1.flatList = s.flatList) :=
  C7_loadFailureLeavesTreeEmpty (Except.ok ["orders"]) (Except.error "boom")
    (Or.inr ⟨"boom", rfl⟩)

/-! ## Claim C8: error events and pane isolation -/

/-- Counterexample to C8 as stated: processing the single `ErrorMsg`
produced by a failed message peek — an operation of the messages pane —
changes the inline error state of the tree pane as well, because
`ExplorerModel.Update` forwards an `ErrorMsg` through its default branch
to both the namespace and the messages models.  Both panes' error
strings change on one event, so the event does not change "exactly the
pane whose operation failed". -/
theorem C8_counterexample :
    explorerInit.ns.errMsg = "" ∧ explorerInit.msgs.errMsg = "" ∧
    (explorerStep (.errorMsg "failed to peek messages: boom") explorerInit).1.ns.errMsg =
      "failed to peek messages: boom" ∧
    (explorerStep (.errorMsg "failed to peek messages: boom") explorerInit).1.msgs.errMsg =
      "failed to peek messages: boom" :=
  ⟨rfl, rfl, rfl, rfl⟩

/-- C8 as amended.  Every provider-layer failure re-enters the event
loop as a typed `ErrorMsg` event; the explorer broadcasts it to both the
tree pane and the messages pane — each records the message as its inline
error, and the messages pane clears its loading flag — while the detail
pane, the focused pane, the cursor memory, the window geometry, and all
remaining pane state are untouched, and no command is issued, leaving
the rest of the UI usable. -/
theorem C8_errorBroadcast :
    (∀ (s : ExplorerState) (e : String),
       explorerStep (.errorMsg e) s =
         ({ s with ns := { s.ns with errMsg := e },
                   msgs := { s.msgs with isLoading := false, errMsg := e } }, [])) ∧
    (∀ r : Except String (List MessageInfo), (∃ e, r = Except.error e) →
       ∃ e, loadMessagesResult r = Msg.errorMsg e) := by
  constructor
  · intro s e
    rfl
  · intro r hr
    rcases hr with ⟨e, rfl⟩
    exact ⟨"failed to peek messages: " ++ e, rfl⟩

/-- Witness for C8 (amended): a concrete failed peek broadcast through
the explorer. -/
theorem C8_errorBroadcast_witness :
    explorerStep (.errorMsg "x") explorerInit =
      ({ explorerInit with
           ns := { explorerInit.ns with errMsg := "x" },
           msgs := { explorerInit.msgs with isLoading := false, errMsg := "x" } }, []) ∧
    ∃ e, loadMessagesResult (Except.error "boom") = Msg.errorMsg e :=
  ⟨C8_errorBroadcast.1 explorerInit "x",
   C8_errorBroadcast.2 (Except.error "boom") ⟨"boom", rfl⟩⟩

/-! ## Lemmas about cache insertion and completion attachment -/

theorem cacheLookup_insert_self (c : List (String × TreeForest)) (k : String) (v : TreeForest) :
    cacheLookup (cacheInsert c k v) k = some v := by
  induction c with
  | nil => simp [cacheInsert, cacheLookup]
  | cons hd tl ih =>
    by_cases hk : hd.1 = k
    · simp [cacheInsert, cacheLookup, hk]
    · simp [cacheInsert, cacheLookup, hk, ih]

theorem cacheLookup_insert_isSome (c : List (String × TreeForest)) (k k' : String)
    (v : TreeForest) (h : (cacheLookup c k).isSome) :
    (cacheLookup (cacheInsert c k' v) k).isSome := by
  induction c with
  | nil => simp [cacheLookup] at h
  | cons hd tl ih =>
    obtain ⟨k0, v0⟩ := hd
    by_cases h1 : k0 = k'
    · subst h1
      by_cases h2 : k0 = k
      · subst h2
        simp [cacheInsert, cacheLookup]
      · simp only [cacheInsert, if_pos rfl, cacheLookup, if_neg h2] at *
        exact h
    · by_cases h2 : k0 = k
      · subst h2
        simp [cacheInsert, cacheLookup, h1]
      · simp only [cacheInsert, if_neg h1, cacheLookup, if_neg h2] at *
        exact ih h

mutual
theorem attachSubsNode_found_iff (tid : String) (subs : TreeForest) (n : TreeNode) :
    (attachSubsNode tid subs n).2 = (findNodeByIDNode tid n).isSome := by
  cases n with
  | mk i nm ty c e l h d =>
    by_cases hid : i = tid
    · simp [attachSubsNode, findNodeByIDNode, hid]
    · simp only [attachSubsNode, findNodeByIDNode, if_neg hid]
      exact attachSubsForest_found_iff tid subs c
theorem attachSubsForest_found_iff (tid : String) (subs : TreeForest) (ts : TreeForest) :
    (attachSubsForest tid subs ts).2 = (findNodeByIDForest tid ts).isSome := by
  cases ts with
  | nil => simp [attachSubsForest, findNodeByIDForest]
  | cons hd tl =>
    have h1 := attachSubsNode_found_iff tid subs hd
    have h2 := attachSubsForest_found_iff tid subs tl
    simp only [attachSubsForest, findNodeByIDForest]
    by_cases hf : (attachSubsNode tid subs hd).2
    · rw [hf] at h1
      cases hfind : findNodeByIDNode tid hd with
      | none => rw [hfind] at h1; simp at h1
      | some n0 => simp [hf, hfind]
    · rw [Bool.not_eq_true] at hf
      rw [hf] at h1
      cases hfind : findNodeByIDNode tid hd with
      | none => simp [hf, hfind, h2]
      | some n0 => rw [hfind] at h1; simp at h1
end

mutual
theorem attachSubsNode_not_found (tid : String) (subs : TreeForest) (n : TreeNode)
    (h : (attachSubsNode tid subs n).2 = false) : (attachSubsNode tid subs n).1 = n := by
  cases n with
  | mk i nm ty c e l hc d =>
    by_cases hid : i = tid
    · simp [attachSubsNode, hid] at h
    · simp only [attachSubsNode, if_neg hid] at *
      rw [attachSubsForest_not_found tid subs c h]
theorem attachSubsForest_not_found (tid : String) (subs : TreeForest) (ts : TreeForest)
    (h : (attachSubsForest tid subs ts).2 = false) : (attachSubsForest tid subs ts).1 = ts := by
  cases ts with
  | nil => rfl
  | cons hd tl =>
    simp only [attachSubsForest] at *
    by_cases hf : (attachSubsNode tid subs hd).2
    · simp [hf] at h
    · rw [Bool.not_eq_true] at hf
      simp only [hf, Bool.false_eq_true, if_false] at *
      rw [attachSubsForest_not_found tid subs tl h]
end

/-! ## Claim C6: subscription-fetch completion processing -/

/-- C6.  Processing a `SubscriptionsLoadedMsg` always writes the payload
into the subscription cache under the topic id; the target node is then
re-located by id (`findNodeByID` over the current tree, not a stored
reference).  When no node with that id exists, the completion is dropped
silently — the root nodes are returned unchanged, so no node's children,
depth, or loading flag change, while the cache entry was still written.
When a node matches, it receives the payload as children with depth
`parent.Depth + 1` and its loading flag is cleared. -/
theorem C6_subsLoadedCompletion :
    ∀ (tid : String) (subs : TreeForest) (s : NsState),
      cacheLookup ((nsStep (.subsLoaded tid subs) s).1).subscriptionCache tid = some subs ∧
      (findNodeByIDForest tid s.rootNodes = none →
        (nsStep (.subsLoaded tid subs) s).1.rootNodes = s.rootNodes ∧
        (nsStep (.subsLoaded tid subs) s).1.flatList = buildFlatList s.rootNodes) ∧
      (∀ n : TreeNode, n.id = tid →
        attachSubsNode tid subs n =
          ((n.setChildren (forestSetDepth subs (n.depth + 1))).setLoading false, true)) := by
  intro tid subs s
  refine ⟨?_, ?_, ?_⟩
  · exact cacheLookup_insert_self s.subscriptionCache tid subs
  · intro hnone
    have hfalse : (attachSubsForest tid subs s.rootNodes).2 = false := by
      rw [attachSubsForest_found_iff, hnone]
      rfl
    have hroots := attachSubsForest_not_found tid subs s.rootNodes hfalse
    constructor
    · show (attachSubsForest tid subs s.rootNodes).1 = s.rootNodes
      exact hroots
    · show buildFlatList (attachSubsForest tid subs s.rootNodes).1 = buildFlatList s.rootNodes
      rw [hroots]
  · intro n hid
    cases n with
    | mk i nm ty c e l h d =>
      simp only [TreeNode.id] at hid
      simp [attachSubsNode, hid, TreeNode.setChildren, TreeNode.setLoading,
        TreeNode.depth]

/-- Witness for C6: a completion for a topic id absent from a one-node
tree is dropped while its cache entry is written, and a matching node
receives the children. -/
theorem C6_subsLoadedCompletion_witness :
    cacheLookup ((nsStep (.subsLoaded "topic-Z" .nil)
        (nsOnTopicsLoaded (.cons (mkTopicNode "T") .nil) nsInit)).1).subscriptionCache
      "topic-Z" = some .nil ∧
    (nsStep (.subsLoaded "topic-Z" .nil)
        (nsOnTopicsLoaded (.cons (mkTopicNode "T") .nil) nsInit)).1.rootNodes =
      (nsOnTopicsLoaded (.cons (mkTopicNode "T") .nil) nsInit).rootNodes := by
  have h := C6_subsLoadedCompletion "topic-Z" .nil
    (nsOnTopicsLoaded (.cons (mkTopicNode "T") .nil) nsInit)
  exact ⟨h.1, (h.2.1 (by decide)).1⟩

/-! ## Frame lemmas for the navigation branches -/

theorem ensureSelectedVisible_frame (s : NsState) :
    (ensureSelectedVisible s).rootNodes = s.rootNodes ∧
    (ensureSelectedVisible s).subscriptionCache = s.subscriptionCache ∧
    (ensureSelectedVisible s).errMsg = s.errMsg ∧
    (ensureSelectedVisible s).isLoading = s.isLoading ∧
    (ensureSelectedVisible s).flatList = s.flatList := by
  unfold ensureSelectedVisible
  dsimp only
  repeat' split
  all_goals exact ⟨rfl, rfl, rfl, rfl, rfl⟩

theorem ensureSelectedVisible_selectedIdx (s : NsState) :
    (ensureSelectedVisible s).selectedIdx =
      max (min s.selectedIdx ((s.flatList.length : Int) - 1)) 0 := by
  unfold ensureSelectedVisible
  dsimp only
  repeat' split
  all_goals (dsimp only; omega)

/-! ## Claim C5: the cache-hit path never re-fetches -/

theorem TreeForest.length_eq_zero_iff (c : TreeForest) : c.length = 0 ↔ c = .nil := by
  cases c with
  | nil => simp [TreeForest.length]
  | cons hd tl =>
    simp only [TreeForest.length]
    constructor
    · intro h
      omega
    · intro h
      exact absurd h (by simp)

theorem handleExpandNode_cached_no_fetch (cache : List (String × TreeForest)) (n : TreeNode)
    (hsome : (cacheLookup cache n.id).isSome) : (handleExpandNode cache n).2 = none := by
  cases n with
  | mk i nm ty c e l h d =>
    simp only [TreeNode.id] at hsome
    cases hlook : cacheLookup cache i with
    | none => rw [hlook] at hsome; simp at hsome
    | some cached =>
      simp only [handleExpandNode, hlook]
      split
      · rfl
      · split
        · rfl
        · rfl

/-- C5.  Once the subscription fetch for a topic has completed, a
subsequent Expand of that topic issues no further fetch: processing the
completion writes the cache entry, cache entries persist across every
event, and `handleExpandNode` on a node whose id is cached either finds
the children still attached (collapse retains them, and re-expanding
returns them unchanged) or reattaches the cached children synchronously
with depth `parent.Depth + 1`; at the step level, pressing expand on
such a selected node produces no fetch command. -/
theorem C5_noRefetchAfterCompletion :
    (∀ (cache : List (String × TreeForest)) (n : TreeNode),
       (cacheLookup cache n.id).isSome → (handleExpandNode cache n).2 = none) ∧
    (∀ (cache : List (String × TreeForest)) (n : TreeNode) (cs : TreeForest),
       cacheLookup cache n.id = some cs →
       n.hasChildren = true → n.isExpanded = false →
       n.type = NodeTypeTopic → n.children = .nil →
       (handleExpandNode cache n).1 =
         (n.setChildren (forestSetDepth cs (n.depth + 1))).setExpanded true) ∧
    (∀ (cache : List (String × TreeForest)) (n : TreeNode),
       n.hasChildren = true → n.isExpanded = false → n.children ≠ .nil →
       handleExpandNode cache n = (n.setExpanded true, none)) ∧
    (∀ n : TreeNode, collapseNode n = n.setExpanded false) ∧
    (∀ (s : NsState) (tid : String) (subs : TreeForest),
       cacheLookup ((nsStep (.subsLoaded tid subs) s).1).subscriptionCache tid = some subs) ∧
    (∀ (m : Msg) (s : NsState) (tid : String),
       (cacheLookup s.subscriptionCache tid).isSome →
       (cacheLookup ((nsStep m s).1).subscriptionCache tid).isSome) ∧
    (∀ (s : NsState) (p : List Nat) (n : TreeNode),
       (flatEntries s.rootNodes).get? s.selectedIdx.toNat = some (p, n) →
       (cacheLookup s.subscriptionCache n.id).isSome →
       ∀ tid, (nsOnKeyRight s).2 ≠ some (NsOut.fetchSubscriptions tid)) := by
  refine ⟨handleExpandNode_cached_no_fetch, ?_, ?_, ?_, ?_, ?_, ?_⟩
  · intro cache n cs hlook hhc hexp hty hch
    cases n with
    | mk i nm ty c e l h d =>
      simp only [TreeNode.id] at hlook
      simp only [TreeNode.hasChildren] at hhc
      simp only [TreeNode.isExpanded] at hexp
      simp only [TreeNode.type] at hty
      simp only [TreeNode.children] at hch
      subst hhc hexp hty hch
      simp [handleExpandNode, TreeForest.length, hlook, TreeNode.setChildren,
        TreeNode.setExpanded, TreeNode.depth]
  · intro cache n hhc hexp hch
    cases n with
    | mk i nm ty c e l h d =>
      simp only [TreeNode.hasChildren] at hhc
      simp only [TreeNode.isExpanded] at hexp
      simp only [TreeNode.children] at hch
      subst hhc hexp
      have hlen : ¬(ty = NodeTypeTopic ∧ c.length = 0) := by
        intro hand
        exact hch ((TreeForest.length_eq_zero_iff c).1 hand.2)
      simp [handleExpandNode, hlen, TreeNode.setExpanded]
  · intro n
    cases n with
    | mk i nm ty c e l h d =>
      cases e <;> simp [collapseNode, TreeNode.setExpanded]
  · intro s tid subs
    exact cacheLookup_insert_self s.subscriptionCache tid subs
  · intro m s tid hsome
    cases m with
    | keyUp =>
      show (cacheLookup (nsOnKeyUp s).subscriptionCache tid).isSome
      unfold nsOnKeyUp
      rw [(ensureSelectedVisible_frame _).2.1]
      split
      · exact hsome
      · exact hsome
    | keyDown =>
      show (cacheLookup (nsOnKeyDown s).subscriptionCache tid).isSome
      unfold nsOnKeyDown
      rw [(ensureSelectedVisible_frame _).2.1]
      split
      · exact hsome
      · exact hsome
    | keyRight =>
      show (cacheLookup (nsOnKeyRight s).1.subscriptionCache tid).isSome
      unfold nsOnKeyRight
      split
      · split
        · exact hsome
        · split
          · split
            · exact hsome
            · exact hsome
          · exact hsome
      · exact hsome
    | keyLeft =>
      show (cacheLookup (nsOnKeyLeft s).subscriptionCache tid).isSome
      unfold nsOnKeyLeft
      split
      · split
        · exact hsome
        · exact hsome
      · exact hsome
    | subsLoaded tid' subs =>
      exact cacheLookup_insert_isSome s.subscriptionCache tid tid' subs hsome
    | keyTab => exact hsome
    | keyOther => exact hsome
    | windowSize w h => exact hsome
    | topicsLoaded nodes => exact hsome
    | subSelected sel => exact hsome
    | messagesLoaded ms => exact hsome
    | errorMsg e => exact hsome
  · intro s p n hget hsome tid hcontra
    unfold nsOnKeyRight at hcontra
    by_cases hguard : 0 ≤ s.selectedIdx ∧ s.selectedIdx < (s.flatList.length : Int)
    · rw [if_pos hguard, hget] at hcontra
      dsimp only at hcontra
      by_cases hty : n.type = NodeTypeMessages
      · rw [if_pos hty] at hcontra
        cases hsel : createMessagesSelectedMsg n with
        | none => rw [hsel] at hcontra; simp at hcontra
        | some sel => rw [hsel] at hcontra; simp at hcontra
      · rw [if_neg hty] at hcontra
        have hnone := handleExpandNode_cached_no_fetch s.subscriptionCache n hsome
        simp only [hnone] at hcontra
        simp at hcontra
    · rw [if_neg hguard] at hcontra
      simp at hcontra

/-- Witness for C5: a cached topic node expands without a fetch, and
collapse only clears the expansion flag. -/
theorem C5_noRefetchAfterCompletion_witness :
    (handleExpandNode [("topic-T", TreeForest.nil)]
        (.mk "topic-T" "T" NodeTypeTopic .nil false false true 0)).2 = none ∧
    collapseNode (mkTopicNode "T") = (mkTopicNode "T").setExpanded false :=
  ⟨C5_noRefetchAfterCompletion.1 [("topic-T", TreeForest.nil)]
      (.mk "topic-T" "T" NodeTypeTopic .nil false false true 0) (by decide),
   C5_noRefetchAfterCompletion.2.2.2.1 (mkTopicNode "T")⟩

/-! ## Claim C1: the flat list is the pre-order of expanded branches -/

theorem flattenNode_head (n : TreeNode) : (flattenNode n).head? = some n := by
  cases n with
  | mk i nm ty c e l h d => simp [flattenNode]

theorem flattenNode_expanded (n : TreeNode) (h : n.isExpanded = true) :
    flattenNode n = n :: flattenForest n.children := by
  cases n with
  | mk i nm ty c e l hc d =>
    simp only [TreeNode.isExpanded] at h
    subst h
    by_cases hlen : 0 < c.length
    · simp [flattenNode, TreeNode.children, hlen]
    · have hnil : c = .nil := (TreeForest.length_eq_zero_iff c).1 (by omega)
      subst hnil
      simp [flattenNode, flattenForest, TreeNode.children]

theorem flattenNode_collapsed (n : TreeNode) (h : n.isExpanded = false) :
    flattenNode n = [n] := by
  cases n with
  | mk i nm ty c e l hc d =>
    simp only [TreeNode.isExpanded] at h
    subst h
    simp [flattenNode]

/-- Every event handler that mutates the tree rebuilds `flatList` from
the new roots, so the flat list stays the pre-order traversal of the
current tree. -/
theorem nsStep_flatList_inv (m : Msg) (s : NsState)
    (h : s.flatList = buildFlatList s.rootNodes) :
    (nsStep m s).1.flatList = buildFlatList (nsStep m s).1.rootNodes := by
  cases m with
  | keyUp =>
    show (nsOnKeyUp s).flatList = buildFlatList (nsOnKeyUp s).rootNodes
    unfold nsOnKeyUp
    rw [(ensureSelectedVisible_frame _).2.2.2.2, (ensureSelectedVisible_frame _).1]
    split
    · exact h
    · exact h
  | keyDown =>
    show (nsOnKeyDown s).flatList = buildFlatList (nsOnKeyDown s).rootNodes
    unfold nsOnKeyDown
    rw [(ensureSelectedVisible_frame _).2.2.2.2, (ensureSelectedVisible_frame _).1]
    split
    · exact h
    · exact h
  | keyRight =>
    show (nsOnKeyRight s).1.flatList = buildFlatList (nsOnKeyRight s).1.rootNodes
    unfold nsOnKeyRight
    split
    · split
      · exact h
      · split
        · split
          · exact h
          · exact h
        · rfl
    · exact h
  | keyLeft =>
    show (nsOnKeyLeft s).flatList = buildFlatList (nsOnKeyLeft s).rootNodes
    unfold nsOnKeyLeft
    split
    · split
      · exact h
      · rfl
    · exact h
  | keyTab => exact h
  | keyOther => exact h
  | windowSize w hh => exact h
  | topicsLoaded nodes => rfl
  | subsLoaded tid subs => rfl
  | subSelected sel => exact h
  | messagesLoaded ms => exact h
  | errorMsg e => exact h

/-- C1.  In every state reachable by any event sequence after a load,
the flat list is exactly the pre-order traversal of the root forest that
descends only into expanded nodes; each node's traversal block starts
with the node itself; an expanded node is immediately followed by the
traversal blocks of its children in provider order (so its first child
is the next entry); and a collapsed node's block is the node alone, so
no children follow it. -/
theorem C1_flatListPreOrder :
    ∀ s : NsState, ReachableNs s →
      s.flatList = buildFlatList s.rootNodes ∧
      (∀ n : TreeNode, (flattenNode n).head? = some n) ∧
      (∀ n : TreeNode, n.isExpanded = true → flattenNode n = n :: flattenForest n.children) ∧
      (∀ n : TreeNode, n.isExpanded = false → flattenNode n = [n]) ∧
      (∀ (hd : TreeNode) (tl : TreeForest),
        flattenForest (.cons hd tl) = flattenNode hd ++ flattenForest tl) := by
  intro s hreach
  refine ⟨?_, flattenNode_head, flattenNode_expanded, flattenNode_collapsed,
    fun hd tl => rfl⟩
  induction hreach with
  | init => rfl
  | step m hs ih => exact nsStep_flatList_inv m _ ih

/-- Witness for C1: the invariant at the initial state, and a collapsed
node flattening to itself alone. -/
theorem C1_flatListPreOrder_witness :
    nsInit.flatList = buildFlatList nsInit.rootNodes ∧
    flattenNode (mkQueueNode "q") = [mkQueueNode "q"] :=
  ⟨(C1_flatListPreOrder nsInit ReachableNs.init).1,
   (C1_flatListPreOrder nsInit ReachableNs.init).2.2.2.1 (mkQueueNode "q") rfl⟩

/-! ## Claim C4: selection bounds -/

theorem nsStep_selectedIdx_nonneg (m : Msg) (s : NsState) (h : 0 ≤ s.selectedIdx) :
    0 ≤ (nsStep m s).1.selectedIdx := by
  cases m with
  | keyUp =>
    show 0 ≤ (nsOnKeyUp s).selectedIdx
    unfold nsOnKeyUp
    rw [ensureSelectedVisible_selectedIdx]
    omega
  | keyDown =>
    show 0 ≤ (nsOnKeyDown s).selectedIdx
    unfold nsOnKeyDown
    rw [ensureSelectedVisible_selectedIdx]
    omega
  | keyRight =>
    show 0 ≤ (nsOnKeyRight s).1.selectedIdx
    unfold nsOnKeyRight
    repeat' split
    all_goals try dsimp only
    all_goals omega
  | keyLeft =>
    show 0 ≤ (nsOnKeyLeft s).selectedIdx
    unfold nsOnKeyLeft
    repeat' split
    all_goals try dsimp only
    all_goals omega
  | keyTab => exact h
  | keyOther => exact h
  | windowSize w hh => exact h
  | topicsLoaded nodes => exact le_refl 0
  | subsLoaded tid subs => exact h
  | subSelected sel => exact h
  | messagesLoaded ms => exact h
  | errorMsg e => exact h

/-- C4 as amended.  In every reachable state the selected index is
nonnegative; after processing an up or down navigation key the selected
index lies in `[0, max (len(flatList)-1) 0]` (`ensureSelectedVisible`
clamps it); pressing up with the selection at index 0, or down with the
selection at index `len(flatList)-1`, leaves the selection unchanged.
(The unqualified invariant of the original claim fails: with an empty
flat list the index 0 exceeds `len-1 = -1`, and a subscriptions
completion that shrinks the visible tree leaves the index past the end
until the next navigation key — see the counterexample.) -/
theorem C4_selectionClamped :
    (∀ s : NsState, ReachableNs s → 0 ≤ s.selectedIdx) ∧
    (∀ s : NsState,
       0 ≤ (nsStep .keyUp s).1.selectedIdx ∧
       (nsStep .keyUp s).1.selectedIdx ≤
         max (((nsStep .keyUp s).1.flatList.length : Int) - 1) 0 ∧
       0 ≤ (nsStep .keyDown s).1.selectedIdx ∧
       (nsStep .keyDown s).1.selectedIdx ≤
         max (((nsStep .keyDown s).1.flatList.length : Int) - 1) 0) ∧
    (∀ s : NsState, s.selectedIdx = 0 → (nsStep .keyUp s).1.selectedIdx = 0) ∧
    (∀ s : NsState, 1 ≤ s.flatList.length →
       s.selectedIdx = (s.flatList.length : Int) - 1 →
       (nsStep .keyDown s).1.selectedIdx = s.selectedIdx) := by
  refine ⟨?_, ?_, ?_, ?_⟩
  · intro s hreach
    induction hreach with
    | init => exact le_refl 0
    | step m hs ih => exact nsStep_selectedIdx_nonneg m _ ih
  · intro s
    refine ⟨?_, ?_, ?_, ?_⟩
    · show 0 ≤ (nsOnKeyUp s).selectedIdx
      unfold nsOnKeyUp
      rw [ensureSelectedVisible_selectedIdx]
      omega
    · show (nsOnKeyUp s).selectedIdx ≤ max (((nsOnKeyUp s).flatList.length : Int) - 1) 0
      unfold nsOnKeyUp
      rw [ensureSelectedVisible_selectedIdx, (ensureSelectedVisible_frame _).2.2.2.2]
      split
      all_goals try dsimp only
      all_goals omega
    · show 0 ≤ (nsOnKeyDown s).selectedIdx
      unfold nsOnKeyDown
      rw [ensureSelectedVisible_selectedIdx]
      omega
    · show (nsOnKeyDown s).selectedIdx ≤ max (((nsOnKeyDown s).flatList.length : Int) - 1) 0
      unfold nsOnKeyDown
      rw [ensureSelectedVisible_selectedIdx, (ensureSelectedVisible_frame _).2.2.2.2]
      split
      all_goals try dsimp only
      all_goals omega
  · intro s h
    show (nsOnKeyUp s).selectedIdx = 0
    unfold nsOnKeyUp
    rw [if_neg (by omega), ensureSelectedVisible_selectedIdx, h]
    omega
  · intro s hlen h
    show (nsOnKeyDown s).selectedIdx = s.selectedIdx
    unfold nsOnKeyDown
    rw [if_neg (by omega), ensureSelectedVisible_selectedIdx]
    omega

/-- Witness for C4 (amended): the initial state, a key up at index 0,
and a key down at the last index of a one-entry list. -/
theorem C4_selectionClamped_witness :
    0 ≤ nsInit.selectedIdx ∧
    (nsStep .keyUp nsInit).1.selectedIdx = 0 ∧
    (nsStep .keyDown (nsOnTopicsLoaded (.cons (mkQueueNode "q") .nil) nsInit)).1.selectedIdx =
      (nsOnTopicsLoaded (.cons (mkQueueNode "q") .nil) nsInit).selectedIdx :=
  ⟨C4_selectionClamped.1 nsInit ReachableNs.init,
   C4_selectionClamped.2.2.1 nsInit rfl,
   C4_selectionClamped.2.2.2 (nsOnTopicsLoaded (.cons (mkQueueNode "q") .nil) nsInit)
     (by decide) (by decide)⟩

def demoSubscriptionNode (nm : String) : TreeNode :=
  .mk ("sub-T-" ++ nm) nm NodeTypeSubscription .nil false false true 1

/-- The event sequence refuting C4 as stated: load one topic, expand it
(fetch one dispatched), collapse it, expand again (cache still empty, so
fetch two is dispatched), process fetch one's completion carrying five
subscriptions, navigate to the last row, then process fetch two's
completion carrying none. -/
def c4Events : List Msg :=
  [.topicsLoaded (.cons (mkTopicNode "T") .nil),
   .keyRight, .keyLeft, .keyRight,
   .subsLoaded "topic-T" (TreeForest.ofList
     [demoSubscriptionNode "s1", demoSubscriptionNode "s2", demoSubscriptionNode "s3",
      demoSubscriptionNode "s4", demoSubscriptionNode "s5"]),
   .keyDown, .keyDown, .keyDown, .keyDown, .keyDown,
   .subsLoaded "topic-T" .nil]

theorem reachableNs_runNs (evs : List Msg) (s : NsState) (h : ReachableNs s) :
    ReachableNs (runNs evs s) := by
  induction evs generalizing s with
  | nil => exact h
  | cons m ms ih => exact ih _ (ReachableNs.step m h)

/-- Counterexample to C4 as stated: after `c4Events` the state is
reachable, its flat list has one entry, but the selected index is 5 —
outside `[0, len(flatList)-1]` — because the second subscriptions
completion shrank the visible tree and nothing re-clamps the index
until the next navigation key. -/
theorem C4_counterexample :
    ReachableNs (runNs c4Events nsInit) ∧
    (runNs c4Events nsInit).flatList.length = 1 ∧
    (runNs c4Events nsInit).selectedIdx = 5 ∧
    ¬((runNs c4Events nsInit).selectedIdx ≤
        ((runNs c4Events nsInit).flatList.length : Int) - 1) :=
  ⟨reachableNs_runNs c4Events nsInit ReachableNs.init, by decide, by decide, by decide⟩
